import Mathlib

/-!
# Intro to Inline Assembly: a machine model of `main.cpp`

The repository is one translation unit with two functions, `main` and `test`, whose
bodies are MSVC `__asm` blocks.  The blocks are transcribed instruction by instruction
(`main_asm`, `test_asm`) and run by a small x86 interpreter:

* the five 32-bit registers the program names (`eax ebx ecx edx esp`) hold naturals
  reduced modulo `2^32` by every arithmetic instruction;
* `ZF` is the only flag the program reads (`jne`), so it is the only flag kept;
* memory is a map from the byte address of a dword to that dword; the program makes
  dword accesses only (the local `b`, `DWORD ptr[ecx]`, stack slots);
* the x87 register stack is a list (head = `ST(0)`, at most eight entries) over a carrier
  `α` whose arithmetic is supplied by `FpuOps`, so the same program text runs over
  exact real arithmetic and over rounded rational arithmetic;
* the float locals (`f` in `main`, `a` and `b` in `test`) are typed cells: the program
  never takes their address.
-/

namespace InlineAsm

/-- Modulus of a 32-bit register, `2^32`. -/
def W32 : Nat := 4294967296

/-- Sum of two register values, reduced to 32 bits. -/
def add32 (a b : Nat) : Nat := (a + b) % W32

/-- Difference `a - b` of two register values, reduced to 32 bits: `2^32 - b` is added
in place of subtracting `b`, so a borrow wraps around. -/
def sub32 (a b : Nat) : Nat := (W32 - b % W32 + a) % W32

/-- The general-purpose registers the program uses. -/
inductive Reg where
  | eax
  | ebx
  | ecx
  | edx
  | esp
  deriving DecidableEq, Repr

/-- The float locals: `float f` of `main`, `float a` and `float b` of `test`. -/
inductive FVar where
  | f
  | a
  | b
  deriving DecidableEq, Repr

/-- The one label of the program. -/
inductive Label where
  | TopOfLoop
  deriving DecidableEq, Repr

/-- Integer operands: a register, an immediate, the int local `b` of `main`
(a memory operand), or `DWORD ptr[r]`. -/
inductive Opnd where
  | reg (r : Reg)
  | imm (n : Nat)
  | b
  | ptr (r : Reg)
  deriving DecidableEq, Repr

/-- The instructions that occur in the two `__asm` blocks. The x87 two-operand forms
carry the stack indices of destination and source: `fadd 1 0` is `fadd st(1), st(0)`. -/
inductive Instr where
  | mov (dst src : Opnd)
  | xor (dst src : Opnd)
  | lea_b (dst : Reg)
  | inc (r : Reg)
  | dec (r : Reg)
  | add (dst src : Opnd)
  | sub (dst src : Opnd)
  | mul (r : Reg)
  | div (r : Reg)
  | push (r : Reg)
  | pop (r : Reg)
  | cmp (x y : Opnd)
  | label (l : Label)
  | jne (l : Label)
  | call_test
  | fld (v : FVar)
  | fld_st (i : Nat)
  | fadd (d i : Nat)
  | fsub (d i : Nat)
  | fsubr (d i : Nat)
  | fmul (d i : Nat)
  | fdiv (d i : Nat)
  | fcos
  | fsin
  | fsincos
  | fst (v : FVar)
  deriving DecidableEq, Repr

/-- The arithmetic of the floating-point unit over a carrier `α`: conversion of a float
literal, the four operations, cosine and sine, and the narrowing done when `ST(0)` is
stored into a `float` local. -/
structure FpuOps (α : Type) where
  lit : ℚ → α
  add : α → α → α
  sub : α → α → α
  mul : α → α → α
  div : α → α → α
  cos : α → α
  sin : α → α
  toFloat : α → α

/-- Who removes the arguments of `test` from the stack: the caller (`cdecl`, the
default of the compiler for `float test(int input)`) or the callee (`stdcall`). -/
inductive CallConv where
  | cdecl
  | stdcall
  deriving DecidableEq, Repr

/-- Bytes the `ret` of `test` pops besides the return address. -/
def retPop : CallConv → Nat
  | .cdecl => 0
  | .stdcall => 4

/-- What the program text leaves open: the float arithmetic, the address the compiler
gave the local `b`, and the calling convention of `test`. -/
structure Env (α : Type) where
  fpu : FpuOps α
  bAddr : Nat
  conv : CallConv

/-- Machine state. `pc` is the index of the next instruction of the `__asm` block of
`main`; code addresses are these indices. -/
structure Cpu (α : Type) where
  eax : Nat
  ebx : Nat
  ecx : Nat
  edx : Nat
  esp : Nat
  zf : Bool
  mem : Nat → Nat
  st : List α
  fv : FVar → Option α
  pc : Nat

/-- Read a register. -/
def Cpu.get {α : Type} (s : Cpu α) : Reg → Nat
  | .eax => s.eax
  | .ebx => s.ebx
  | .ecx => s.ecx
  | .edx => s.edx
  | .esp => s.esp

/-- Write a register. -/
def Cpu.set {α : Type} (s : Cpu α) (r : Reg) (v : Nat) : Cpu α :=
  match r with
  | .eax => { s with eax := v }
  | .ebx => { s with ebx := v }
  | .ecx => { s with ecx := v }
  | .edx => { s with edx := v }
  | .esp => { s with esp := v }

/-- Memory with the dword at address `a` replaced by `v`. -/
def store (m : Nat → Nat) (a v : Nat) : Nat → Nat :=
  fun x => if x = a then v else m x

/-- Float locals with `v` set to `x`. -/
def setFv {α : Type} (m : FVar → Option α) (v : FVar) (x : α) : FVar → Option α :=
  fun w => if w = v then some x else m w

/-- Value of an integer operand. -/
def readOp {α : Type} (env : Env α) (s : Cpu α) : Opnd → Nat
  | .reg r => s.get r
  | .imm n => n % W32
  | .b => s.mem env.bAddr
  | .ptr r => s.mem (s.get r)

/-- Store into an integer operand; an immediate is no destination. -/
def writeOp {α : Type} (env : Env α) (s : Cpu α) (o : Opnd) (v : Nat) : Option (Cpu α) :=
  match o with
  | .reg r => some (s.set r v)
  | .imm _ => none
  | .b => some { s with mem := store s.mem env.bAddr v }
  | .ptr r => some { s with mem := store s.mem (s.get r) v }

/-- Store an arithmetic result and set `ZF` from it. -/
def writeFlags {α : Type} (env : Env α) (s : Cpu α) (o : Opnd) (v : Nat) : Option (Cpu α) :=
  match writeOp env s o v with
  | none => none
  | some t => some { t with zf := v == 0 }

/-- Push onto the x87 stack; all eight registers in use is a stack fault. -/
def fpush {α : Type} (s : Cpu α) (x : α) : Option (Cpu α) :=
  if s.st.length < 8 then some { s with st := x :: s.st } else none

/-- Two-operand x87 arithmetic `ST(d) := op ST(d) ST(i)`; an empty register is a
stack fault. -/
def farith {α : Type} (op : α → α → α) (d i : Nat) (s : Cpu α) : Option (Cpu α) :=
  match s.st.get? d, s.st.get? i with
  | some x, some y => some { s with st := s.st.set d (op x y) }
  | _, _ => none

/-- One instruction other than a label, jump or call. `none` is a fault: `div` by zero
or with a quotient that does not fit 32 bits, an x87 stack fault, a load of a float
local that was never written. `mul` and `div` leave `ZF` undefined on the processor;
the model leaves it as it was. -/
def exec1 {α : Type} (env : Env α) (i : Instr) (s : Cpu α) : Option (Cpu α) :=
  match i with
  | .mov d src => writeOp env s d (readOp env s src)
  | .xor d src => writeFlags env s d (Nat.xor (readOp env s d) (readOp env s src))
  | .lea_b r => some (s.set r env.bAddr)
  | .inc r => writeFlags env s (.reg r) (add32 (s.get r) 1)
  | .dec r => writeFlags env s (.reg r) (sub32 (s.get r) 1)
  | .add d src => writeFlags env s d (add32 (readOp env s d) (readOp env s src))
  | .sub d src => writeFlags env s d (sub32 (readOp env s d) (readOp env s src))
  | .mul r =>
      some { s with eax := s.eax * s.get r % W32, edx := s.eax * s.get r / W32 % W32 }
  | .div r =>
      if s.get r = 0 then none
      else if W32 ≤ (s.edx * W32 + s.eax) / s.get r then none
      else some { s with eax := (s.edx * W32 + s.eax) / s.get r,
                         edx := (s.edx * W32 + s.eax) % s.get r }
  | .push r =>
      some { s with esp := sub32 s.esp 4, mem := store s.mem (sub32 s.esp 4) (s.get r) }
  | .pop r => some (({ s with esp := add32 s.esp 4 }).set r (s.mem s.esp))
  | .cmp x y => some { s with zf := sub32 (readOp env s x) (readOp env s y) == 0 }
  | .label _ => none
  | .jne _ => none
  | .call_test => none
  | .fld v =>
      match s.fv v with
      | none => none
      | some x => fpush s x
  | .fld_st i =>
      match s.st.get? i with
      | none => none
      | some x => fpush s x
  | .fadd d i => farith env.fpu.add d i s
  | .fsub d i => farith env.fpu.sub d i s
  | .fsubr d i => farith (fun x y => env.fpu.sub y x) d i s
  | .fmul d i => farith env.fpu.mul d i s
  | .fdiv d i => farith env.fpu.div d i s
  | .fcos =>
      match s.st with
      | [] => none
      | x :: r => some { s with st := env.fpu.cos x :: r }
  | .fsin =>
      match s.st with
      | [] => none
      | x :: r => some { s with st := env.fpu.sin x :: r }
  | .fsincos =>
      match s.st with
      | [] => none
      | x :: r =>
          if r.length < 7 then some { s with st := env.fpu.cos x :: env.fpu.sin x :: r }
          else none
  | .fst v =>
      match s.st with
      | [] => none
      | x :: _ => some { s with fv := setFv s.fv v (env.fpu.toFloat x) }

/-- A straight-line instruction sequence. -/
def execSeq {α : Type} (env : Env α) : List Instr → Cpu α → Option (Cpu α)
  | [], s => some s
  | i :: is, s =>
      match exec1 env i s with
      | none => none
      | some t => execSeq env is t

/-- The `__asm` block of `test` (main.cpp lines 351 to 378). -/
def test_asm : List Instr :=
  [ .fld .a,
    .fld .b,
    .fld_st 1,
    .fadd 0 1,
    .fadd 1 0,
    .fsub 0 1,
    .fsubr 0 1,
    .fmul 0 1,
    .fdiv 0 1,
    .fcos,
    .fsin,
    .fsincos ]

/-- The C++ statements before the block of `test`: `float a = 1.0f; float b = 1.5f;`. -/
def test_entry {α : Type} (env : Env α) (s : Cpu α) : Cpu α :=
  { s with fv := setFv (setFv s.fv .a (env.fpu.lit 1)) .b (env.fpu.lit (3 / 2)) }

/-- The function `test`: its initialisers, then its block. The result is what the
block leaves in `ST(0)`; the parameter `input` is never read. The frame code the
compiler puts around the body is not in the source; it hands `esp` back as it found
it, and that is all the model keeps of it. -/
def test {α : Type} (env : Env α) (s : Cpu α) : Option (Cpu α) :=
  execSeq env test_asm (test_entry env s)

/-- The `__asm` block of `main` (main.cpp lines 174 to 317). -/
def main_asm : List Instr :=
  [ .mov (.reg .eax) .b,
    .mov .b (.reg .eax),
    .mov (.reg .ebx) (.imm 8),
    .xor (.reg .ebx) (.reg .ebx),
    .lea_b .ecx,
    .mov (.reg .ebx) (.ptr .ecx),
    .mov (.ptr .ecx) (.reg .ebx),
    .inc .ebx,
    .add (.reg .eax) (.reg .ebx),
    .sub (.reg .eax) (.reg .ebx),
    .mul .ebx,
    .inc .eax,
    .div .ebx,
    .push .eax,
    .inc .eax,
    .pop .eax,
    .dec .eax,
    .label .TopOfLoop,
    .inc .eax,
    .cmp (.reg .eax) (.reg .ebx),
    .jne .TopOfLoop,
    .push .eax,
    .call_test,
    .add (.reg .esp) (.imm 4),
    .fst .f ]

/-- Index of a label in a block. -/
def findLabel (l : Label) : List Instr → Option Nat
  | [] => none
  | i :: is =>
      if i = .label l then some 0
      else
        match findLabel l is with
        | none => none
        | some k => some (k + 1)

/-- One step of a block. A label is passed over; `jne` goes to its label when `ZF` is
clear and to the next instruction when it is set; `call test` pushes the return
address, runs `test`, and returns to the address on top of the stack, popping it and
what the calling convention asks for. -/
def step {α : Type} (env : Env α) (prog : List Instr) (s : Cpu α) : Option (Cpu α) :=
  match prog.get? s.pc with
  | none => none
  | some (.label _) => some { s with pc := s.pc + 1 }
  | some (.jne l) =>
      if s.zf then some { s with pc := s.pc + 1 }
      else
        match findLabel l prog with
        | none => none
        | some k => some { s with pc := k }
  | some .call_test =>
      match test env { s with esp := sub32 s.esp 4,
                              mem := store s.mem (sub32 s.esp 4) (s.pc + 1) } with
      | none => none
      | some t =>
          some { t with esp := add32 t.esp (4 + retPop env.conv), pc := t.mem t.esp }
  | some i =>
      match exec1 env i s with
      | none => none
      | some t => some { t with pc := s.pc + 1 }

/-- Exactly `n` steps. -/
def run {α : Type} (env : Env α) (prog : List Instr) : Nat → Cpu α → Option (Cpu α)
  | 0, s => some s
  | n + 1, s =>
      match step env prog s with
      | none => none
      | some t => run env prog n t

/-- Run until control leaves the block at its end, within `fuel` steps. -/
def runBlock {α : Type} (env : Env α) (prog : List Instr) : Nat → Cpu α → Option (Cpu α)
  | 0, s => if s.pc = prog.length then some s else none
  | n + 1, s =>
      if s.pc = prog.length then some s
      else
        match step env prog s with
        | none => none
        | some t => runBlock env prog n t

/-- The C++ statements before the block of `main`: `int b = 7; float f;`. -/
def main_entry {α : Type} (env : Env α) (s : Cpu α) : Cpu α :=
  { s with mem := store s.mem env.bAddr 7, pc := 0 }

/-- The function `main`: its initialisers, its block, then `return 1`. -/
def main {α : Type} (env : Env α) (fuel : Nat) (s : Cpu α) : Option (Cpu α) :=
  match runBlock env main_asm fuel (main_entry env s) with
  | none => none
  | some t => some { t with eax := 1 }

/-- Exact arithmetic in a field, with the given cosine and sine. -/
def exactOps {α : Type} [Field α] (cos sin : α → α) : FpuOps α where
  lit := fun q => (q : α)
  add := fun x y => x + y
  sub := fun x y => x - y
  mul := fun x y => x * y
  div := fun x y => x / y
  cos := cos
  sin := sin
  toFloat := fun x => x

/-- Rational arithmetic in which every result passes through a rounding `rnd`. -/
def roundedOps (rnd cos sin : ℚ → ℚ) : FpuOps ℚ where
  lit := fun q => rnd q
  add := fun x y => rnd (x + y)
  sub := fun x y => rnd (x - y)
  mul := fun x y => rnd (x * y)
  div := fun x y => rnd (x / y)
  cos := cos
  sin := sin
  toFloat := rnd

/-- A rational that a binary32 `float` holds exactly: `m * 2^e` with a 24-bit
significand and an exponent in range. -/
def IsBinary32 (x : ℚ) : Prop :=
  ∃ m e : ℤ, |m| < 2 ^ 24 ∧ -149 ≤ e ∧ e ≤ 104 ∧ x = m * (2 : ℚ) ^ e

/-- Rounding to the nearest multiple of `2^-149`, the spacing of the smallest binary32
values: a rounding that leaves every binary32 value as it is and moves other rationals
(one third, say). -/
def roundGrid (x : ℚ) : ℚ := round (x * 2 ^ 149) / 2 ^ 149

/-- A machine at rest: zeroed registers and memory, empty x87 stack, no float local
written. -/
def idle (α : Type) : Cpu α :=
  { eax := 0, ebx := 0, ecx := 0, edx := 0, esp := 1048576, zf := false,
    mem := fun _ => 0, st := [], fv := fun _ => none, pc := 0 }

/-- An environment over the rationals with exact arithmetic; cosine and sine are
stand-ins, used only where the trigonometric instructions play no part. -/
def envQ : Env ℚ :=
  { fpu := exactOps (fun x => x) (fun x => x), bAddr := 1048568, conv := .cdecl }

/-- A machine about to enter the loop for the first time in the run of `main`:
at the label `TopOfLoop` with `eax = 6` and `ebx = 8`. -/
def atLoop : Cpu ℚ :=
  { idle ℚ with eax := 6, ebx := 8, pc := 17 }

/-- A machine about to execute `cmp eax, ebx` with `eax = 7` and `ebx = 8`. -/
def atCmp : Cpu ℚ :=
  { idle ℚ with eax := 7, ebx := 8, pc := 19 }

/-- A machine about to execute `cmp eax, ebx` with `eax = ebx = 8`. -/
def atCmpEq : Cpu ℚ :=
  { idle ℚ with eax := 8, ebx := 8, pc := 19 }


theorem run_add {α : Type} (env : Env α) (prog : List Instr) (m n : Nat) (s : Cpu α) :
    run env prog (m + n) s = (run env prog m s).bind (run env prog n) := by
  induction m generalizing s with
  | zero => simp [run]
  | succ k ih =>
    rw [Nat.succ_add]
    simp only [run]
    cases h : step env prog s with
    | none => simp
    | some t => simp [ih]

theorem W32_eq : W32 = 2 ^ 32 := by
  decide

theorem store_self (m : Nat → Nat) (a v : Nat) : store m a v a = v := by
  simp [store]

theorem store_other (m : Nat → Nat) (a v x : Nat) (h : x ≠ a) : store m a v x = m x := by
  simp [store, h]

theorem store_fixed (m : Nat → Nat) (a : Nat) : store m a (m a) = m := by
  funext x
  by_cases h : x = a
  · subst h; simp [store]
  · simp [store, h]

theorem add32_sub32_four (e : Nat) : add32 (sub32 e 4) 4 = e % W32 := by
  unfold add32 sub32 W32; omega

theorem mul_inc_div_arith (b : Nat) (h1 : 1 ≤ b) (h2 : b ≤ 4294967294) :
    b * (b + 1) % 2 = 0 ∧ b * (b + 1) < 4294967296 * 4294967296 ∧
    (b * (b + 1) + 1) / (b + 1) = b ∧ (b * (b + 1) + 1) % (b + 1) = 1 := by
  refine ⟨?_, ?_, ?_, ?_⟩
  · exact Nat.even_iff.mp (Nat.even_mul_succ_self b)
  · have : b * (b + 1) ≤ 4294967294 * 4294967295 := Nat.mul_le_mul h2 (by omega)
    omega
  · rw [Nat.add_comm, Nat.add_mul_div_right _ _ (by omega : 0 < b + 1)]
    rw [Nat.div_eq_of_lt (by omega)]; omega
  · rw [Nat.add_comm, Nat.add_mul_mod_self_right]
    exact Nat.mod_eq_of_lt (by omega)

theorem lead_in_run {α : Type} (env : Env α) (s : Cpu α) (hpc : s.pc = 0)
    (h2 : s.mem env.bAddr ≤ 4294967294) :
    run env main_asm 10 s =
      some { s with eax := s.mem env.bAddr, ebx := s.mem env.bAddr + 1, ecx := env.bAddr,
                    zf := s.mem env.bAddr == 0, pc := 10 } := by
  have e1 : add32 (s.mem env.bAddr) 1 = s.mem env.bAddr + 1 := by
    unfold add32 W32; omega
  have e2 : sub32 (add32 (s.mem env.bAddr) (s.mem env.bAddr + 1)) (s.mem env.bAddr + 1)
      = s.mem env.bAddr := by
    unfold add32 sub32 W32; omega
  simp only [run, step, main_asm, exec1, hpc, writeOp, readOp, writeFlags, Cpu.get, Cpu.set,
    store_self, store_fixed, List.get?_cons_succ, List.get?_cons_zero, Nat.reduceAdd, e1, e2,
    Nat.zero_add]

theorem mul_inc_div_run {α : Type} (env : Env α) (s : Cpu α) (b : Nat) (hpc : s.pc = 10)
    (ha : s.eax = b) (hb : s.ebx = b + 1)
    (h1 : 1 ≤ b) (h2 : b ≤ 4294967294) :
    run env main_asm 1 s =
        some { s with eax := b * (b + 1) % W32, edx := b * (b + 1) / W32, pc := 11 } ∧
    run env main_asm 2 s =
        some { s with eax := b * (b + 1) % W32 + 1, edx := b * (b + 1) / W32, zf := false,
                      pc := 12 } ∧
    run env main_asm 3 s = some { s with eax := b, edx := 1, zf := false, pc := 13 } := by
  obtain ⟨e1, e2, e3, e4⟩ := mul_inc_div_arith b h1 h2
  have hhi : b * (b + 1) / W32 % W32 = b * (b + 1) / W32 := by
    unfold W32
    generalize b * (b + 1) = p at e1 e2
    omega
  have hinc : add32 (b * (b + 1) % W32) 1 = b * (b + 1) % W32 + 1 := by
    unfold add32 W32
    generalize b * (b + 1) = p at e1 e2
    omega
  have hz : (b * (b + 1) % W32 + 1 == 0) = false := by simp
  have hD : b * (b + 1) / W32 * W32 + (b * (b + 1) % W32 + 1) = b * (b + 1) + 1 := by
    unfold W32
    generalize b * (b + 1) = p at e1 e2
    omega
  have hne : ¬ (b + 1 = 0) := by omega
  have hq : ¬ (W32 ≤ b) := by unfold W32; omega
  refine ⟨?_, ?_, ?_⟩ <;>
  simp only [run, step, main_asm, exec1, hpc, ha, hb, writeOp, readOp, writeFlags, Cpu.get,
    Cpu.set, List.get?_cons_succ, List.get?_cons_zero, Nat.reduceAdd, hhi, hinc, hz, hD, e3, e4,
    hne, hq, if_false]

/-- The integer sequence, `mov eax, b` through `div ebx`, for any admissible `b`. -/
theorem int_seq_run {α : Type} (env : Env α) (s : Cpu α) (hpc : s.pc = 0)
    (h1 : 1 ≤ s.mem env.bAddr) (h2 : s.mem env.bAddr ≤ 4294967294) :
    run env main_asm 13 s =
      some { s with eax := s.mem env.bAddr, ebx := s.mem env.bAddr + 1, ecx := env.bAddr,
                    edx := 1, zf := false, pc := 13 } := by
  rw [show 13 = 10 + 3 from rfl, run_add, lead_in_run env s hpc h2]
  simp only [Option.some_bind]
  rw [(mul_inc_div_run env _ (s.mem env.bAddr) rfl rfl rfl h1 h2).2.2]

theorem push_inc_pop_run {α : Type} (env : Env α) (s : Cpu α) (hpc : s.pc = 13) :
    run env main_asm 1 s =
        some { s with esp := sub32 s.esp 4, mem := store s.mem (sub32 s.esp 4) s.eax,
                      pc := 14 } ∧
    run env main_asm 2 s =
        some { s with eax := add32 s.eax 1, esp := sub32 s.esp 4,
                      zf := add32 s.eax 1 == 0,
                      mem := store s.mem (sub32 s.esp 4) s.eax, pc := 15 } ∧
    run env main_asm 3 s =
        some { s with esp := s.esp % W32, zf := add32 s.eax 1 == 0,
                      mem := store s.mem (sub32 s.esp 4) s.eax, pc := 16 } := by
  refine ⟨?_, ?_, ?_⟩ <;>
  simp only [run, step, main_asm, exec1, hpc, writeOp, readOp, writeFlags, Cpu.get, Cpu.set,
    store_self, add32_sub32_four, List.get?_cons_succ, List.get?_cons_zero, Nat.reduceAdd]

theorem dec_run {α : Type} (env : Env α) (s : Cpu α) (hpc : s.pc = 16) :
    run env main_asm 1 s =
      some { s with eax := sub32 s.eax 1, zf := sub32 s.eax 1 == 0, pc := 17 } := by
  simp only [run, step, main_asm, exec1, hpc, writeOp, readOp, writeFlags, Cpu.get, Cpu.set,
    List.get?_cons_succ, List.get?_cons_zero, Nat.reduceAdd]

theorem loop_head_run {α : Type} (env : Env α) (s : Cpu α) (hpc : s.pc = 17) :
    run env main_asm 1 s = some { s with pc := 18 } ∧
    run env main_asm 2 s =
        some { s with eax := add32 s.eax 1, zf := add32 s.eax 1 == 0, pc := 19 } := by
  refine ⟨?_, ?_⟩ <;>
  simp only [run, step, main_asm, exec1, hpc, writeOp, readOp, writeFlags, Cpu.get, Cpu.set,
    List.get?_cons_succ, List.get?_cons_zero, Nat.reduceAdd]

theorem sub32_eq_zero (a b : Nat) (ha : a < W32) (hb : b < W32) :
    (sub32 a b == 0) = decide (a = b) := by
  have key : sub32 a b = 0 ↔ a = b := by
    unfold sub32 W32; unfold W32 at ha hb; omega
  by_cases h : a = b
  · rw [key.mpr h, decide_eq_true h]; rfl
  · have hne : sub32 a b ≠ 0 := mt key.mp h
    simp [h, hne]

theorem findLabel_top : findLabel .TopOfLoop main_asm = some 17 := by
  decide

theorem cmp_jne_run {α : Type} (env : Env α) (s : Cpu α) (hpc : s.pc = 19)
    (ha : s.eax < W32) (hb : s.ebx < W32) :
    run env main_asm 1 s = some { s with zf := decide (s.eax = s.ebx), pc := 20 } ∧
    run env main_asm 2 s =
        some { s with zf := decide (s.eax = s.ebx),
                      pc := if s.eax = s.ebx then 21 else 17 } := by
  have hz := sub32_eq_zero s.eax s.ebx ha hb
  refine ⟨?_, ?_⟩
  · simp only [run, step, main_asm, exec1, hpc, readOp, Cpu.get, hz,
      List.get?_cons_succ, List.get?_cons_zero, Nat.reduceAdd]
  · have hl := findLabel_top
    simp only [main_asm] at hl
    simp only [run, step, main_asm, exec1, hpc, readOp, Cpu.get, hz, hl,
      List.get?_cons_succ, List.get?_cons_zero, Nat.reduceAdd]
    by_cases h : s.eax = s.ebx
    · simp [h]
    · simp [h]

theorem add32_lt (a b : Nat) : add32 a b < W32 := by
  unfold add32 W32; omega

theorem loop_pass {α : Type} (env : Env α) (s : Cpu α) (hpc : s.pc = 17)
    (hb : s.ebx < W32) :
    run env main_asm 3 s =
        some { s with eax := add32 s.eax 1, zf := decide (add32 s.eax 1 = s.ebx), pc := 20 } ∧
    run env main_asm 4 s =
        some { s with eax := add32 s.eax 1, zf := decide (add32 s.eax 1 = s.ebx),
                      pc := if add32 s.eax 1 = s.ebx then 21 else 17 } := by
  have h2 := (loop_head_run env s hpc).2
  have hc := cmp_jne_run env
    { s with eax := add32 s.eax 1, zf := add32 s.eax 1 == 0, pc := 19 } rfl
    (add32_lt _ _) hb
  refine ⟨?_, ?_⟩
  · rw [show 3 = 2 + 1 from rfl, run_add, h2, Option.some_bind, hc.1]
  · rw [show 4 = 2 + 2 from rfl, run_add, h2, Option.some_bind, hc.2]

/-- The loop at `TopOfLoop`, entered with `k` further passes to go after the first:
it leaves at index 21 after `4 * (k + 1)` steps with `eax = ebx`, every other register,
memory and the x87 stack as on entry, and it is inside the loop until then. -/
theorem loop_exit {α : Type} (env : Env α) (k : Nat) :
    ∀ s : Cpu α, s.pc = 17 → s.ebx < W32 → sub32 s.ebx (add32 s.eax 1) = k →
      (run env main_asm (4 * (k + 1)) s =
          some { s with eax := s.ebx, zf := true, pc := 21 }) ∧
      (∀ j, j < 4 * (k + 1) → ∃ u, run env main_asm j s = some u ∧ 17 ≤ u.pc ∧ u.pc ≤ 20 ∧
          u.ebx = s.ebx) := by
  induction k with
  | zero =>
    intro s hpc hb hk
    have heq : add32 s.eax 1 = s.ebx := by
      have := add32_lt s.eax 1
      unfold sub32 at hk
      unfold W32 at hk hb this
      omega
    obtain ⟨h3, h4⟩ := loop_pass env s hpc hb
    obtain ⟨h1, h2⟩ := loop_head_run env s hpc
    refine ⟨?_, ?_⟩
    · rw [show 4 * (0 + 1) = 4 from rfl, h4]
      simp [heq]
    · intro j hj
      have hj4 : j < 4 := by omega
      interval_cases j
      · exact ⟨s, rfl, by omega, by omega, rfl⟩
      · exact ⟨_, h1, by simp, by simp, rfl⟩
      · exact ⟨_, h2, by simp, by simp, rfl⟩
      · exact ⟨_, h3, by simp, by simp, rfl⟩
  | succ k ih =>
    intro s hpc hb hk
    have hne : add32 s.eax 1 ≠ s.ebx := by
      have := add32_lt s.eax 1
      unfold sub32 at hk
      unfold W32 at hk hb this
      omega
    obtain ⟨h3, h4⟩ := loop_pass env s hpc hb
    obtain ⟨h1, h2⟩ := loop_head_run env s hpc
    rw [if_neg hne] at h4
    have hk2 : sub32 s.ebx (add32 (add32 s.eax 1) 1) = k := by
      have := add32_lt s.eax 1
      unfold sub32 at hk ⊢
      unfold add32 at hk hne this ⊢
      unfold W32 at hk hb hne this ⊢
      omega
    obtain ⟨ih1, ih2⟩ := ih
      { s with eax := add32 s.eax 1, zf := decide (add32 s.eax 1 = s.ebx), pc := 17 }
      rfl hb hk2
    refine ⟨?_, ?_⟩
    · rw [show 4 * (k + 1 + 1) = 4 + 4 * (k + 1) by ring, run_add, h4, Option.some_bind, ih1]
    · intro j hj
      by_cases hj4 : j < 4
      · interval_cases j
        · exact ⟨s, rfl, by omega, by omega, rfl⟩
        · exact ⟨_, h1, by simp, by simp, rfl⟩
        · exact ⟨_, h2, by simp, by simp, rfl⟩
        · exact ⟨_, h3, by simp, by simp, rfl⟩
      · obtain ⟨u, hu, hu1, hu2, hu3⟩ := ih2 (j - 4) (by omega)
        refine ⟨u, ?_, hu1, hu2, hu3⟩
        rw [show j = 4 + (j - 4) by omega, run_add, h4, Option.some_bind]
        exact hu

/-- What `test` computes on an empty x87 stack, over any float arithmetic: the state
after the six arithmetic instructions, and the state on return. -/
theorem test_run {α : Type} (env : Env α) (s : Cpu α) (hst : s.st = []) :
    let x1 := env.fpu.lit 1
    let x2 := env.fpu.lit (3 / 2)
    let A := env.fpu.add x1 x2
    let B := env.fpu.add x2 A
    let C := env.fpu.sub A B
    let D := env.fpu.sub B C
    let E := env.fpu.mul D B
    let F := env.fpu.div E B
    let G := env.fpu.sin (env.fpu.cos F)
    execSeq env (test_asm.take 3) (test_entry env s) =
        some { s with st := [x1, x2, x1], fv := setFv (setFv s.fv .a x1) .b x2 } ∧
    execSeq env (test_asm.take 9) (test_entry env s) =
        some { s with st := [F, B, x1], fv := setFv (setFv s.fv .a x1) .b x2 } ∧
    test env s =
        some { s with st := [env.fpu.cos G, env.fpu.sin G, B, x1],
                      fv := setFv (setFv s.fv .a x1) .b x2 } := by
  refine ⟨?_, ?_, ?_⟩ <;>
  simp [test, execSeq, test_asm, test_entry, exec1, fpush, farith, setFv, hst]

theorem four_mod : 4 % W32 = 4 := by decide

theorem push_arg_run {α : Type} (env : Env α) (s : Cpu α) (hpc : s.pc = 21) :
    run env main_asm 1 s =
      some { s with esp := sub32 s.esp 4, mem := store s.mem (sub32 s.esp 4) s.eax,
                    pc := 22 } := by
  simp only [run, step, main_asm, exec1, hpc, Cpu.get, List.get?_cons_succ,
    List.get?_cons_zero, Nat.reduceAdd]

theorem call_run {α : Type} (env : Env α) (s : Cpu α) (hpc : s.pc = 22) (hst : s.st = []) :
    let x1 := env.fpu.lit 1
    let x2 := env.fpu.lit (3 / 2)
    let A := env.fpu.add x1 x2
    let B := env.fpu.add x2 A
    let C := env.fpu.sub A B
    let D := env.fpu.sub B C
    let E := env.fpu.mul D B
    let F := env.fpu.div E B
    let G := env.fpu.sin (env.fpu.cos F)
    run env main_asm 1 s =
      some { s with esp := add32 (sub32 s.esp 4) (4 + retPop env.conv),
                    mem := store s.mem (sub32 s.esp 4) 23,
                    st := [env.fpu.cos G, env.fpu.sin G, B, x1],
                    fv := setFv (setFv s.fv .a x1) .b x2, pc := 23 } := by
  intro x1 x2 A B C D E F G
  have ht := (test_run env
    { s with esp := sub32 s.esp 4, mem := store s.mem (sub32 s.esp 4) 23, pc := 22 } hst).2.2
  simp only [run, step, main_asm, hpc, List.get?_cons_succ,
    List.get?_cons_zero, Nat.reduceAdd, ht, store_self]

theorem add_esp_run {α : Type} (env : Env α) (s : Cpu α) (hpc : s.pc = 23) :
    run env main_asm 1 s =
      some { s with esp := add32 s.esp 4, zf := add32 s.esp 4 == 0, pc := 24 } := by
  simp only [run, step, main_asm, exec1, hpc, writeOp, readOp, writeFlags, Cpu.get, Cpu.set,
    List.get?_cons_succ, List.get?_cons_zero, Nat.reduceAdd, four_mod]

theorem fst_run {α : Type} (env : Env α) (s : Cpu α) (x : α) (r : List α) (hpc : s.pc = 24)
    (hst : s.st = x :: r) :
    run env main_asm 1 s =
      some { s with fv := setFv s.fv .f (env.fpu.toFloat x), pc := 25 } := by
  simp only [run, step, main_asm, exec1, hpc, hst, List.get?_cons_succ, List.get?_cons_zero,
    Nat.reduceAdd]

theorem step_pc_succ {α : Type} (env : Env α) (prog : List Instr) (s t : Cpu α)
    (h : step env prog s = some t)
    (hj : ∀ l, prog.get? s.pc ≠ some (.jne l)) (hc : prog.get? s.pc ≠ some .call_test) :
    t.pc = s.pc + 1 := by
  unfold step at h
  split at h
  · simp at h
  · simp only [Option.some.injEq] at h; rw [← h]
  · rename_i l hl; exact absurd hl (hj l)
  · rename_i hl; exact absurd hl hc
  · split at h
    · simp at h
    · simp only [Option.some.injEq] at h; rw [← h]

theorem run_prefix_some {α : Type} (env : Env α) (prog : List Instr) (k n : Nat) (s t : Cpu α)
    (h : run env prog (k + n) s = some t) : ∃ u, run env prog k s = some u := by
  rw [run_add] at h
  cases hk : run env prog k s with
  | none => rw [hk] at h; simp at h
  | some u => exact ⟨u, rfl⟩

/-- Straight-line code advances the instruction index by one per step. -/
theorem run_pc_straight {α : Type} (env : Env α) (prog : List Instr) (n : Nat) (s t : Cpu α)
    (h : run env prog n s = some t)
    (hseq : ∀ j, j < n → (∀ l, prog.get? (s.pc + j) ≠ some (.jne l)) ∧
      prog.get? (s.pc + j) ≠ some .call_test) :
    ∀ k, k ≤ n → ∃ u, run env prog k s = some u ∧ u.pc = s.pc + k := by
  intro k
  induction k with
  | zero => intro _; exact ⟨s, rfl, rfl⟩
  | succ k ih =>
    intro hk
    obtain ⟨u, hu, hupc⟩ := ih (by omega)
    obtain ⟨v, hv⟩ := run_prefix_some env prog (k + 1) (n - (k + 1)) s t
      (by rw [show k + 1 + (n - (k + 1)) = n by omega]; exact h)
    refine ⟨v, hv, ?_⟩
    rw [run_add, hu, Option.some_bind] at hv
    have hstep : step env prog u = some v := by
      simp only [run] at hv
      cases hs : step env prog u with
      | none => rw [hs] at hv; simp at hv
      | some w => rw [hs] at hv; simpa using hv
    have := step_pc_succ env prog u v hstep
      (by rw [hupc]; exact (hseq k (by omega)).1) (by rw [hupc]; exact (hseq k (by omega)).2)
    omega

theorem runBlock_of_run {α : Type} (env : Env α) (prog : List Instr) (n : Nat) :
    ∀ (fuel : Nat) (s t : Cpu α), run env prog n s = some t → t.pc = prog.length → n ≤ fuel →
      runBlock env prog fuel s = some t := by
  induction n with
  | zero =>
    intro fuel s t h hpc _
    simp only [run, Option.some.injEq] at h
    subst h
    cases fuel <;> simp [runBlock, hpc]
  | succ n ih =>
    intro fuel s t h hpc hle
    obtain ⟨f, rfl⟩ : ∃ f, fuel = f + 1 := ⟨fuel - 1, by omega⟩
    simp only [run] at h
    cases hs : step env prog s with
    | none => rw [hs] at h; simp at h
    | some u =>
      rw [hs] at h
      have hne : s.pc ≠ prog.length := by
        intro he
        unfold step at hs
        rw [he] at hs
        simp at hs
      simp only [runBlock, hne, if_false, hs]
      exact ih f u t h hpc (by omega)

theorem trace13 {α : Type} (env : Env α) (s0 : Cpu α) :
    run env main_asm 13 (main_entry env s0) =
      some { s0 with eax := 7, ebx := 8, ecx := env.bAddr, edx := 1, zf := false,
                     mem := store s0.mem env.bAddr 7, pc := 13 } := by
  have h := int_seq_run env (main_entry env s0) rfl
    (by simp only [main_entry, store_self]; omega)
    (by simp only [main_entry, store_self]; omega)
  simp only [main_entry, store_self, Nat.reduceAdd] at h
  exact h

theorem trace17 {α : Type} (env : Env α) (s0 : Cpu α) :
    ∃ t, run env main_asm 17 (main_entry env s0) = some t ∧ t.pc = 17 ∧ t.eax = 6 ∧
      t.ebx = 8 ∧ t.esp = s0.esp % W32 ∧ t.st = s0.st ∧ t.fv = s0.fv := by
  have h3 := (push_inc_pop_run env
    { s0 with eax := 7, ebx := 8, ecx := env.bAddr, edx := 1, zf := false,
              mem := store s0.mem env.bAddr 7, pc := 13 } rfl).2.2
  rw [show 17 = 13 + (3 + 1) from rfl, run_add, trace13, Option.some_bind, run_add, h3,
    Option.some_bind, dec_run env _ rfl]
  refine ⟨_, rfl, rfl, ?_, rfl, rfl, rfl, rfl⟩
  show sub32 7 1 = 6
  decide

theorem trace19 {α : Type} (env : Env α) (s0 : Cpu α) :
    ∃ t, run env main_asm 19 (main_entry env s0) = some t ∧ t.pc = 19 ∧ t.eax = 7 ∧
      t.ebx = 8 ∧ t.esp = s0.esp % W32 ∧ t.st = s0.st ∧ t.fv = s0.fv := by
  obtain ⟨t, ht, hpc, ha, hb, he, hs, hf⟩ := trace17 env s0
  rw [show 19 = 17 + 2 from rfl, run_add, ht, Option.some_bind, (loop_head_run env t hpc).2]
  refine ⟨_, rfl, rfl, ?_, hb, he, hs, hf⟩
  show add32 t.eax 1 = 7
  rw [ha]; decide

theorem trace25 {α : Type} (env : Env α) (s0 : Cpu α) :
    ∃ t, run env main_asm 25 (main_entry env s0) = some t ∧ t.pc = 21 ∧ t.eax = 8 ∧
      t.ebx = 8 ∧ t.esp = s0.esp % W32 ∧ t.st = s0.st ∧ t.fv = s0.fv := by
  obtain ⟨t, ht, hpc, ha, hb, he, hs, hf⟩ := trace17 env s0
  have hx := (loop_exit env 1 t hpc (by rw [hb]; decide) (by rw [ha, hb]; decide)).1
  rw [show 25 = 17 + 4 * (1 + 1) from rfl, run_add, ht, Option.some_bind, hx]
  exact ⟨_, rfl, rfl, hb, hb, he, hs, hf⟩

theorem trace26 {α : Type} (env : Env α) (s0 : Cpu α) :
    ∃ t, run env main_asm 26 (main_entry env s0) = some t ∧ t.pc = 22 ∧ t.eax = 8 ∧
      t.ebx = 8 ∧ t.esp = sub32 (s0.esp % W32) 4 ∧ t.st = s0.st ∧ t.fv = s0.fv := by
  obtain ⟨t, ht, hpc, ha, hb, he, hs, hf⟩ := trace25 env s0
  rw [show 26 = 25 + 1 from rfl, run_add, ht, Option.some_bind, push_arg_run env t hpc]
  refine ⟨_, rfl, rfl, ha, hb, ?_, hs, hf⟩
  show sub32 t.esp 4 = _
  rw [he]

theorem trace27 {α : Type} (env : Env α) (s0 : Cpu α) (hst : s0.st = []) :
    let x1 := env.fpu.lit 1
    let x2 := env.fpu.lit (3 / 2)
    let A := env.fpu.add x1 x2
    let B := env.fpu.add x2 A
    let C := env.fpu.sub A B
    let D := env.fpu.sub B C
    let E := env.fpu.mul D B
    let F := env.fpu.div E B
    let G := env.fpu.sin (env.fpu.cos F)
    ∃ t, run env main_asm 27 (main_entry env s0) = some t ∧ t.pc = 23 ∧
      t.esp = add32 (sub32 (sub32 (s0.esp % W32) 4) 4) (4 + retPop env.conv) ∧
      t.st = [env.fpu.cos G, env.fpu.sin G, B, x1] ∧ t.fv .f = s0.fv .f := by
  intro x1 x2 A B C D E F G
  obtain ⟨t, ht, hpc, ha, hb, he, hs, hf⟩ := trace26 env s0
  have hc := call_run env t hpc (hs.trans hst)
  dsimp only at hc
  rw [show 27 = 26 + 1 from rfl, run_add, ht, Option.some_bind, hc]
  refine ⟨_, rfl, rfl, ?_, rfl, ?_⟩
  · show add32 (sub32 t.esp 4) _ = _
    rw [he]
  · simp [setFv, hf]

theorem trace29 {α : Type} (env : Env α) (s0 : Cpu α) (hst : s0.st = []) :
    let x1 := env.fpu.lit 1
    let x2 := env.fpu.lit (3 / 2)
    let A := env.fpu.add x1 x2
    let B := env.fpu.add x2 A
    let C := env.fpu.sub A B
    let D := env.fpu.sub B C
    let E := env.fpu.mul D B
    let F := env.fpu.div E B
    let G := env.fpu.sin (env.fpu.cos F)
    (∃ t, run env main_asm 28 (main_entry env s0) = some t ∧ t.pc = 24 ∧
      t.esp = add32 (add32 (sub32 (sub32 (s0.esp % W32) 4) 4) (4 + retPop env.conv)) 4) ∧
    (∃ t, run env main_asm 29 (main_entry env s0) = some t ∧ t.pc = 25 ∧
      t.esp = add32 (add32 (sub32 (sub32 (s0.esp % W32) 4) 4) (4 + retPop env.conv)) 4 ∧
      t.st = [env.fpu.cos G, env.fpu.sin G, B, x1] ∧
      t.fv .f = some (env.fpu.toFloat (env.fpu.cos G))) := by
  intro x1 x2 A B C D E F G
  obtain ⟨t, ht, hpc, he, hs, hf⟩ := trace27 env s0 hst
  have h28 : run env main_asm 28 (main_entry env s0) =
      some { t with esp := add32 t.esp 4, zf := add32 t.esp 4 == 0, pc := 24 } := by
    rw [show 28 = 27 + 1 from rfl, run_add, ht, Option.some_bind, add_esp_run env t hpc]
  have h29 := fst_run env
    { t with esp := add32 t.esp 4, zf := add32 t.esp 4 == 0, pc := 24 }
    (env.fpu.cos G) [env.fpu.sin G, B, x1] rfl hs
  refine ⟨⟨_, h28, rfl, ?_⟩, ?_⟩
  · show add32 t.esp 4 = _
    rw [he]
  · rw [show 29 = 28 + 1 from rfl, run_add, h28, Option.some_bind, h29]
    refine ⟨_, rfl, rfl, ?_, hs, ?_⟩
    · show add32 t.esp 4 = _
      rw [he]
    · simp [setFv]

/-- C1: in `main`, starting with `b = 7`, after the thirteen instructions from
`mov eax, b` through `div ebx` the registers hold `eax = 7`, `ebx = 8`, `edx = 1`,
whatever the machine held on entry. -/
theorem C1_int_seq_registers {α : Type} (env : Env α) (s0 : Cpu α) :
    main_asm.get? 0 = some (.mov (.reg .eax) .b) ∧
    main_asm.get? 12 = some (.div .ebx) ∧
    (run env main_asm 13 (main_entry env s0)).map (fun t => (t.pc, t.eax, t.ebx, t.edx))
      = some (13, 7, 8, 1) := by
  refine ⟨rfl, rfl, ?_⟩
  rw [trace13]
  rfl

/-- C8: for every value `b` of the local with `1 ≤ b ≤ 2^32 - 2`, the thirteen
instructions from `mov eax, b` through `div ebx` run without a fault; after `mul ebx`
the low word `eax` is `b * (b + 1) mod 2^32` and even, so `inc eax` adds one without
wrapping; `div ebx` meets a nonzero divisor `b + 1` and a quotient below `2^32`; and the
sequence ends with `eax = b`, `ebx = b + 1`, `edx = 1` and memory, `b` included, as it
was. -/
theorem C8_int_seq_general {α : Type} (env : Env α) (s : Cpu α) (hpc : s.pc = 0)
    (h1 : 1 ≤ s.mem env.bAddr) (h2 : s.mem env.bAddr ≤ 4294967294) :
    ∃ v u t, run env main_asm 11 s = some v ∧ run env main_asm 12 s = some u ∧
      run env main_asm 13 s = some t ∧
      main_asm.get? 10 = some (.mul .ebx) ∧ main_asm.get? 11 = some (.inc .eax) ∧
      main_asm.get? 12 = some (.div .ebx) ∧
      v.eax = s.mem env.bAddr * (s.mem env.bAddr + 1) % W32 ∧ v.eax % 2 = 0 ∧
      v.eax + 1 < W32 ∧ u.eax = v.eax + 1 ∧
      u.ebx = s.mem env.bAddr + 1 ∧ u.ebx ≠ 0 ∧ (u.edx * W32 + u.eax) / u.ebx < W32 ∧
      t.eax = s.mem env.bAddr ∧ t.ebx = s.mem env.bAddr + 1 ∧ t.edx = 1 ∧
      t.mem = s.mem ∧ t.mem env.bAddr = s.mem env.bAddr := by
  obtain ⟨e1, e2, e3, e4⟩ := mul_inc_div_arith (s.mem env.bAddr) h1 h2
  have hl := lead_in_run env s hpc h2
  obtain ⟨m1, m2, m3⟩ := mul_inc_div_run env
    { s with eax := s.mem env.bAddr, ebx := s.mem env.bAddr + 1, ecx := env.bAddr,
             zf := s.mem env.bAddr == 0, pc := 10 } (s.mem env.bAddr) rfl rfl rfl h1 h2
  have hD : s.mem env.bAddr * (s.mem env.bAddr + 1) / W32 * W32
      + (s.mem env.bAddr * (s.mem env.bAddr + 1) % W32 + 1)
      = s.mem env.bAddr * (s.mem env.bAddr + 1) + 1 := by
    unfold W32
    generalize s.mem env.bAddr * (s.mem env.bAddr + 1) = p at e1 e2
    omega
  have r11 := run_add env main_asm 10 1 s
  have r12 := run_add env main_asm 10 2 s
  have r13 := run_add env main_asm 10 3 s
  rw [hl, Option.some_bind, m1] at r11
  rw [hl, Option.some_bind, m2] at r12
  rw [hl, Option.some_bind, m3] at r13
  refine ⟨_, _, _, r11, r12, r13, rfl, rfl, rfl, rfl, ?_, ?_, rfl, rfl, ?_, ?_, rfl, rfl, rfl,
    rfl, rfl⟩
  · show s.mem env.bAddr * (s.mem env.bAddr + 1) % W32 % 2 = 0
    unfold W32
    generalize s.mem env.bAddr * (s.mem env.bAddr + 1) = p at e1 e2
    omega
  · show s.mem env.bAddr * (s.mem env.bAddr + 1) % W32 + 1 < W32
    unfold W32
    generalize s.mem env.bAddr * (s.mem env.bAddr + 1) = p at e1 e2
    omega
  · show s.mem env.bAddr + 1 ≠ 0
    omega
  · show (s.mem env.bAddr * (s.mem env.bAddr + 1) / W32 * W32
      + (s.mem env.bAddr * (s.mem env.bAddr + 1) % W32 + 1)) / (s.mem env.bAddr + 1) < W32
    rw [hD, e3]
    unfold W32
    omega

/-- C8 at `b = 7`, the value `main` gives the local. -/
theorem C8_int_seq_general_witness :
    (main_entry envQ (idle ℚ)).pc = 0 ∧
    1 ≤ (main_entry envQ (idle ℚ)).mem envQ.bAddr ∧
    (main_entry envQ (idle ℚ)).mem envQ.bAddr ≤ 4294967294 ∧
    ∃ v u t, run envQ main_asm 11 (main_entry envQ (idle ℚ)) = some v ∧
      run envQ main_asm 12 (main_entry envQ (idle ℚ)) = some u ∧
      run envQ main_asm 13 (main_entry envQ (idle ℚ)) = some t ∧
      main_asm.get? 10 = some (.mul .ebx) ∧ main_asm.get? 11 = some (.inc .eax) ∧
      main_asm.get? 12 = some (.div .ebx) ∧
      v.eax = (main_entry envQ (idle ℚ)).mem envQ.bAddr
        * ((main_entry envQ (idle ℚ)).mem envQ.bAddr + 1) % W32 ∧ v.eax % 2 = 0 ∧
      v.eax + 1 < W32 ∧ u.eax = v.eax + 1 ∧
      u.ebx = (main_entry envQ (idle ℚ)).mem envQ.bAddr + 1 ∧ u.ebx ≠ 0 ∧
      (u.edx * W32 + u.eax) / u.ebx < W32 ∧
      t.eax = (main_entry envQ (idle ℚ)).mem envQ.bAddr ∧
      t.ebx = (main_entry envQ (idle ℚ)).mem envQ.bAddr + 1 ∧ t.edx = 1 ∧
      t.mem = (main_entry envQ (idle ℚ)).mem ∧
      t.mem envQ.bAddr = (main_entry envQ (idle ℚ)).mem envQ.bAddr :=
  ⟨rfl, by decide, by decide,
    C8_int_seq_general envQ (main_entry envQ (idle ℚ)) rfl (by decide) (by decide)⟩

theorem esp_round_trip (e : Nat) (h : e < W32) :
    e % W32 = e ∧ add32 (sub32 e 4) 4 = e ∧
    add32 (sub32 (sub32 e 4) 4) (4 + retPop .cdecl) = sub32 e 4 ∧
    add32 (add32 (sub32 (sub32 e 4) 4) (4 + retPop .cdecl)) 4 = e ∧
    (4 ≤ e → sub32 e 4 + 4 = e) := by
  simp only [retPop]
  unfold add32 sub32
  unfold W32 at h ⊢
  omega

/-- C2: the stack pointer is balanced across the block of `main` when `test` is
`cdecl`. With `esp < 2^32` and an empty x87 stack on entry: `esp` is the entry value
before `push eax` (index 13), four lower modulo `2^32` after the push and after
`inc eax` (exactly four lower when `esp ≥ 4`), and the entry value again after
`pop eax`; it is the entry value before the second `push eax` (index 21), four lower
after the push and after `call test` has returned, and the entry value after
`add esp, 4` and at the end of the block. -/
theorem C2_esp_balanced {α : Type} (ops : FpuOps α) (bAddr : Nat) (s0 : Cpu α)
    (hesp : s0.esp < W32) (hst : s0.st = []) :
    let env : Env α := { fpu := ops, bAddr := bAddr, conv := .cdecl }
    let at_step := fun n =>
      (run env main_asm n (main_entry env s0)).map (fun t => (t.pc, t.esp))
    main_asm.get? 13 = some (.push .eax) ∧ main_asm.get? 15 = some (.pop .eax) ∧
    main_asm.get? 21 = some (.push .eax) ∧ main_asm.get? 22 = some .call_test ∧
    main_asm.get? 23 = some (.add (.reg .esp) (.imm 4)) ∧ main_asm.length = 25 ∧
    at_step 0 = some (0, s0.esp) ∧
    at_step 13 = some (13, s0.esp) ∧
    at_step 14 = some (14, sub32 s0.esp 4) ∧
    at_step 15 = some (15, sub32 s0.esp 4) ∧
    at_step 16 = some (16, s0.esp) ∧
    at_step 25 = some (21, s0.esp) ∧
    at_step 26 = some (22, sub32 s0.esp 4) ∧
    at_step 27 = some (23, sub32 s0.esp 4) ∧
    at_step 28 = some (24, s0.esp) ∧
    at_step 29 = some (25, s0.esp) ∧
    (4 ≤ s0.esp → sub32 s0.esp 4 + 4 = s0.esp) := by
  intro env at_step
  obtain ⟨m0, m1, m2, m3, m4⟩ := esp_round_trip s0.esp hesp
  obtain ⟨p1, p2, p3⟩ := push_inc_pop_run env
    { s0 with eax := 7, ebx := 8, ecx := env.bAddr, edx := 1, zf := false,
              mem := store s0.mem env.bAddr 7, pc := 13 } rfl
  have r14 := run_add env main_asm 13 1 (main_entry env s0)
  have r15 := run_add env main_asm 13 2 (main_entry env s0)
  have r16 := run_add env main_asm 13 3 (main_entry env s0)
  rw [trace13, Option.some_bind, p1] at r14
  rw [trace13, Option.some_bind, p2] at r15
  rw [trace13, Option.some_bind, p3] at r16
  obtain ⟨t25, h25, q25, -, -, e25, -, -⟩ := trace25 env s0
  obtain ⟨t26, h26, q26, -, -, e26, -, -⟩ := trace26 env s0
  obtain ⟨t27, h27, q27, e27, -, -⟩ := trace27 env s0 hst
  obtain ⟨⟨t28, h28, q28, e28⟩, ⟨t29, h29, q29, e29, -, -⟩⟩ := trace29 env s0 hst
  rw [m0] at e25 e26 e27 e28 e29
  rw [m2] at e27
  rw [m3] at e28 e29
  refine ⟨rfl, rfl, rfl, rfl, rfl, rfl, rfl, ?_, ?_, ?_, ?_, ?_, ?_, ?_, ?_, ?_, m4⟩
  · show (run env main_asm 13 (main_entry env s0)).map _ = _
    rw [trace13]; rfl
  · show (run env main_asm (13 + 1) (main_entry env s0)).map _ = _
    rw [r14]; rfl
  · show (run env main_asm (13 + 2) (main_entry env s0)).map _ = _
    rw [r15]; rfl
  · show (run env main_asm (13 + 3) (main_entry env s0)).map _ = _
    rw [r16]
    show some (16, s0.esp % W32) = _
    rw [m0]
  · show (run env main_asm 25 (main_entry env s0)).map _ = _
    rw [h25, Option.map_some', q25, e25]
  · show (run env main_asm 26 (main_entry env s0)).map _ = _
    rw [h26, Option.map_some', q26, e26]
  · show (run env main_asm 27 (main_entry env s0)).map _ = _
    rw [h27, Option.map_some', q27, e27]
  · show (run env main_asm 28 (main_entry env s0)).map _ = _
    rw [h28, Option.map_some', q28, e28]
  · show (run env main_asm 29 (main_entry env s0)).map _ = _
    rw [h29, Option.map_some', q29, e29]

/-- C2 on the idle machine, whose stack pointer is `0x100000`. -/
theorem C2_esp_balanced_witness :
    (idle ℚ).esp < W32 ∧ (idle ℚ).st = [] ∧
    (main_asm.get? 13 = some (.push .eax) ∧ main_asm.get? 15 = some (.pop .eax) ∧
    main_asm.get? 21 = some (.push .eax) ∧ main_asm.get? 22 = some .call_test ∧
    main_asm.get? 23 = some (.add (.reg .esp) (.imm 4)) ∧ main_asm.length = 25 ∧
    (run envQ main_asm 0 (main_entry envQ (idle ℚ))).map (fun t => (t.pc, t.esp))
      = some (0, 1048576) ∧
    (run envQ main_asm 13 (main_entry envQ (idle ℚ))).map (fun t => (t.pc, t.esp))
      = some (13, 1048576) ∧
    (run envQ main_asm 14 (main_entry envQ (idle ℚ))).map (fun t => (t.pc, t.esp))
      = some (14, 1048572) ∧
    (run envQ main_asm 15 (main_entry envQ (idle ℚ))).map (fun t => (t.pc, t.esp))
      = some (15, 1048572) ∧
    (run envQ main_asm 16 (main_entry envQ (idle ℚ))).map (fun t => (t.pc, t.esp))
      = some (16, 1048576) ∧
    (run envQ main_asm 25 (main_entry envQ (idle ℚ))).map (fun t => (t.pc, t.esp))
      = some (21, 1048576) ∧
    (run envQ main_asm 26 (main_entry envQ (idle ℚ))).map (fun t => (t.pc, t.esp))
      = some (22, 1048572) ∧
    (run envQ main_asm 27 (main_entry envQ (idle ℚ))).map (fun t => (t.pc, t.esp))
      = some (23, 1048572) ∧
    (run envQ main_asm 28 (main_entry envQ (idle ℚ))).map (fun t => (t.pc, t.esp))
      = some (24, 1048576) ∧
    (run envQ main_asm 29 (main_entry envQ (idle ℚ))).map (fun t => (t.pc, t.esp))
      = some (25, 1048576) ∧
    (4 ≤ (idle ℚ).esp → sub32 (idle ℚ).esp 4 + 4 = (idle ℚ).esp)) :=
  ⟨by decide, rfl, C2_esp_balanced envQ.fpu envQ.bAddr (idle ℚ) (by decide) rfl⟩

/-- C3: the loop `TopOfLoop: inc eax; cmp eax, ebx; jne TopOfLoop` runs until
`eax = ebx`. From any state at the label with a 32-bit `ebx` it reaches the instruction
after `jne` (index 21) after finitely many steps, staying inside the loop with `ebx`
untouched until then, and leaves with `eax = ebx` and `ebx` as on entry. In the run of
`main` the label is reached after 17 steps and the loop is left after 25, with
`eax = ebx = 8`. -/
theorem C3_loop_until_equal {α : Type} (env : Env α) (s s0 : Cpu α) (hpc : s.pc = 17)
    (hb : s.ebx < W32) :
    findLabel .TopOfLoop main_asm = some 17 ∧
    main_asm.get? 18 = some (.inc .eax) ∧
    main_asm.get? 19 = some (.cmp (.reg .eax) (.reg .ebx)) ∧
    main_asm.get? 20 = some (.jne .TopOfLoop) ∧
    (∃ n t, run env main_asm n s = some t ∧ t.pc = 21 ∧ t.eax = s.ebx ∧ t.ebx = s.ebx ∧
      ∀ j, j < n → ∃ u, run env main_asm j s = some u ∧ 17 ≤ u.pc ∧ u.pc ≤ 20 ∧
        u.ebx = s.ebx) ∧
    (∃ t, run env main_asm 17 (main_entry env s0) = some t ∧ t.pc = 17) ∧
    (∃ t, run env main_asm 25 (main_entry env s0) = some t ∧ t.pc = 21 ∧ t.eax = 8 ∧
      t.ebx = 8) := by
  refine ⟨findLabel_top, rfl, rfl, rfl, ?_, ?_, ?_⟩
  · obtain ⟨hx, hin⟩ := loop_exit env (sub32 s.ebx (add32 s.eax 1)) s hpc hb rfl
    exact ⟨_, _, hx, rfl, rfl, rfl, hin⟩
  · obtain ⟨t, ht, hp, -⟩ := trace17 env s0
    exact ⟨t, ht, hp⟩
  · obtain ⟨t, ht, hp, ha, hb, -⟩ := trace25 env s0
    exact ⟨t, ht, hp, ha, hb⟩

/-- C3 on a machine at the label with `eax = 6`, `ebx = 8`, and on the run of `main`
from the idle machine. -/
theorem C3_loop_until_equal_witness :
    atLoop.pc = 17 ∧ atLoop.ebx < W32 ∧
    (findLabel .TopOfLoop main_asm = some 17 ∧
    main_asm.get? 18 = some (.inc .eax) ∧
    main_asm.get? 19 = some (.cmp (.reg .eax) (.reg .ebx)) ∧
    main_asm.get? 20 = some (.jne .TopOfLoop) ∧
    (∃ n t, run envQ main_asm n atLoop = some t ∧ t.pc = 21 ∧ t.eax = atLoop.ebx ∧
      t.ebx = atLoop.ebx ∧
      ∀ j, j < n → ∃ u, run envQ main_asm j atLoop = some u ∧ 17 ≤ u.pc ∧ u.pc ≤ 20 ∧
        u.ebx = atLoop.ebx) ∧
    (∃ t, run envQ main_asm 17 (main_entry envQ (idle ℚ)) = some t ∧ t.pc = 17) ∧
    (∃ t, run envQ main_asm 25 (main_entry envQ (idle ℚ)) = some t ∧ t.pc = 21 ∧
      t.eax = 8 ∧ t.ebx = 8)) :=
  ⟨rfl, by decide, C3_loop_until_equal envQ atLoop (idle ℚ) rfl (by decide)⟩

/-- C6, what the code does: in the run of `main` the first nineteen steps execute the
instructions at indices 0 to 18 in order, none of which is a `cmp`; the twentieth
executes `cmp eax, ebx` (index 19) and finds `eax = 7`, not 6, and `ebx = 8`. The value
6 is what `eax` holds two steps earlier, on arrival at the label. -/
theorem C6_first_cmp_sees_seven {α : Type} (env : Env α) (s0 : Cpu α) :
    (∀ k, k < 19 → ∃ u, run env main_asm k (main_entry env s0) = some u ∧ u.pc = k ∧
      ∀ x y, main_asm.get? u.pc ≠ some (.cmp x y)) ∧
    main_asm.get? 19 = some (.cmp (.reg .eax) (.reg .ebx)) ∧
    (∃ t, run env main_asm 17 (main_entry env s0) = some t ∧ t.pc = 17 ∧ t.eax = 6 ∧
      t.ebx = 8) ∧
    (∃ t, run env main_asm 19 (main_entry env s0) = some t ∧ t.pc = 19 ∧ t.eax = 7 ∧
      t.ebx = 8 ∧ t.eax ≠ 6) := by
  obtain ⟨t19, h19, p19, a19, b19, -⟩ := trace19 env s0
  obtain ⟨t17, h17, p17, a17, b17, -⟩ := trace17 env s0
  refine ⟨?_, rfl, ⟨t17, h17, p17, a17, b17⟩, ⟨t19, h19, p19, a19, b19, by omega⟩⟩
  intro k hk
  have hstraight := run_pc_straight env main_asm 19 (main_entry env s0) t19 h19
    (by
      intro j hj
      show (∀ l, main_asm.get? (0 + j) ≠ some (.jne l)) ∧
        main_asm.get? (0 + j) ≠ some .call_test
      rw [Nat.zero_add]
      interval_cases j <;> simp [main_asm])
    k (by omega)
  obtain ⟨u, hu, hupc⟩ := hstraight
  have hupc' : u.pc = k := by
    rw [hupc]
    show 0 + k = k
    omega
  refine ⟨u, hu, hupc', ?_⟩
  rw [hupc']
  intro x y
  interval_cases k <;> simp [main_asm]

/-- C7 as stated fails: at `cmp eax, ebx` with `eax = 7`, `ebx = 8` the two steps
`cmp`, `jne` lead to `TopOfLoop` (index 17) although the values differ, and with
`eax = ebx = 8` they lead past the loop (index 21) although the values are equal. -/
theorem C7_counterexample :
    findLabel .TopOfLoop main_asm = some 17 ∧
    atCmp.pc = 19 ∧ atCmp.eax ≠ atCmp.ebx ∧
    (run envQ main_asm 2 atCmp).map (fun t => t.pc) = some 17 ∧
    atCmpEq.pc = 19 ∧ atCmpEq.eax = atCmpEq.ebx ∧
    (run envQ main_asm 2 atCmpEq).map (fun t => t.pc) = some 21 := by
  decide

/-- C7 amended: after `cmp eax, ebx` on 32-bit values, `jne TopOfLoop` transfers
control to `TopOfLoop` if and only if the two compared values were not equal; when
they were equal control goes on to the instruction after the jump. Neither step changes
a register. -/
theorem C7_jne_iff_not_equal {α : Type} (env : Env α) (s : Cpu α) (hpc : s.pc = 19)
    (ha : s.eax < W32) (hb : s.ebx < W32) :
    findLabel .TopOfLoop main_asm = some 17 ∧
    main_asm.get? 19 = some (.cmp (.reg .eax) (.reg .ebx)) ∧
    main_asm.get? 20 = some (.jne .TopOfLoop) ∧
    ∃ c t, run env main_asm 1 s = some c ∧ c.pc = 20 ∧ (c.zf = true ↔ s.eax = s.ebx) ∧
      run env main_asm 2 s = some t ∧
      (t.pc = 17 ↔ s.eax ≠ s.ebx) ∧ (t.pc = 21 ↔ s.eax = s.ebx) ∧
      t.eax = s.eax ∧ t.ebx = s.ebx := by
  obtain ⟨h1, h2⟩ := cmp_jne_run env s hpc ha hb
  refine ⟨findLabel_top, rfl, rfl, _, _, h1, rfl, ?_, h2, ?_, ?_, rfl, rfl⟩
  · show decide (s.eax = s.ebx) = true ↔ _
    simp
  · show (if s.eax = s.ebx then 21 else 17) = 17 ↔ _
    by_cases h : s.eax = s.ebx <;> simp [h]
  · show (if s.eax = s.ebx then 21 else 17) = 21 ↔ _
    by_cases h : s.eax = s.ebx <;> simp [h]

/-- C7 amended, on the machine at `cmp` with `eax = 7`, `ebx = 8`. -/
theorem C7_jne_iff_not_equal_witness :
    atCmp.pc = 19 ∧ atCmp.eax < W32 ∧ atCmp.ebx < W32 ∧
    (findLabel .TopOfLoop main_asm = some 17 ∧
    main_asm.get? 19 = some (.cmp (.reg .eax) (.reg .ebx)) ∧
    main_asm.get? 20 = some (.jne .TopOfLoop) ∧
    ∃ c t, run envQ main_asm 1 atCmp = some c ∧ c.pc = 20 ∧
      (c.zf = true ↔ atCmp.eax = atCmp.ebx) ∧
      run envQ main_asm 2 atCmp = some t ∧
      (t.pc = 17 ↔ atCmp.eax ≠ atCmp.ebx) ∧ (t.pc = 21 ↔ atCmp.eax = atCmp.ebx) ∧
      t.eax = atCmp.eax ∧ t.ebx = atCmp.ebx) :=
  ⟨rfl, by decide, by decide, C7_jne_iff_not_equal envQ atCmp rfl (by decide) (by decide)⟩

/-- The x87 stack after each of the six arithmetic instructions of `test`, over any
float arithmetic. -/
theorem test_steps_run {α : Type} (env : Env α) (s : Cpu α) (hst : s.st = []) :
    let x1 := env.fpu.lit 1
    let x2 := env.fpu.lit (3 / 2)
    let A := env.fpu.add x1 x2
    let B := env.fpu.add x2 A
    let C := env.fpu.sub A B
    let D := env.fpu.sub B C
    let E := env.fpu.mul D B
    let F := env.fpu.div E B
    let st_after := fun n =>
      (execSeq env (test_asm.take n) (test_entry env s)).map (fun t => t.st)
    st_after 3 = some [x1, x2, x1] ∧ st_after 4 = some [A, x2, x1] ∧
    st_after 5 = some [A, B, x1] ∧ st_after 6 = some [C, B, x1] ∧
    st_after 7 = some [D, B, x1] ∧ st_after 8 = some [E, B, x1] ∧
    st_after 9 = some [F, B, x1] := by
  refine ⟨?_, ?_, ?_, ?_, ?_, ?_, ?_⟩ <;>
  simp [execSeq, test_asm, test_entry, exec1, fpush, farith, setFv, hst]

theorem binary32_values :
    IsBinary32 1 ∧ IsBinary32 (3 / 2) ∧ IsBinary32 (5 / 2) ∧ IsBinary32 4 ∧
    IsBinary32 (-3 / 2) ∧ IsBinary32 (11 / 2) ∧ IsBinary32 22 := by
  refine ⟨⟨1, 0, ?_, ?_, ?_, ?_⟩, ⟨3, -1, ?_, ?_, ?_, ?_⟩, ⟨5, -1, ?_, ?_, ?_, ?_⟩,
    ⟨1, 2, ?_, ?_, ?_, ?_⟩, ⟨-3, -1, ?_, ?_, ?_, ?_⟩, ⟨11, -1, ?_, ?_, ?_, ?_⟩,
    ⟨11, 1, ?_, ?_, ?_, ?_⟩⟩ <;> norm_num [abs_lt]

theorem roundGrid_fixes (x : ℚ) (h : IsBinary32 x) : roundGrid x = x := by
  obtain ⟨m, e, -, he, -, rfl⟩ := h
  obtain ⟨k, hk⟩ : ∃ k : ℕ, e + 149 = k := ⟨(e + 149).toNat, by omega⟩
  have h2 : (m : ℚ) * (2 : ℚ) ^ e * 2 ^ 149 = ((m * 2 ^ k : ℤ) : ℚ) := by
    have hp : (2 : ℚ) ^ e * 2 ^ 149 = 2 ^ k := by
      rw [← zpow_natCast (2 : ℚ) 149, ← zpow_add₀ (by norm_num : (2 : ℚ) ≠ 0),
        ← zpow_natCast (2 : ℚ) k, ← hk]
      norm_num
    rw [mul_assoc, hp]
    push_cast
    rfl
  unfold roundGrid
  rw [h2, round_intCast, ← h2]
  field_simp

/-- C5: in `test`, with `a = 1.0` and `b = 1.5` and an empty x87 stack on entry,
`fld a; fld b; fld st(1)` leaves `ST(0) = 1.0`, `ST(1) = 1.5`, `ST(2) = 1.0`, and the
six arithmetic instructions that follow leave, one after the other, 2.5 in `ST(0)`, 4.0
in `ST(1)`, then -1.5, 5.5, 22.0 and 5.5 in `ST(0)`, so that the stack ends as
`ST(0) = 5.5`, `ST(1) = 4.0`, `ST(2) = 1.0`. This holds under every rounding of results
that leaves binary32 values as they are. -/
theorem C5_fpu_stack_exact (rnd cos sin : ℚ → ℚ) (bAddr : Nat) (conv : CallConv)
    (s : Cpu ℚ) (hst : s.st = []) (hr : ∀ x, IsBinary32 x → rnd x = x) :
    let env : Env ℚ := { fpu := roundedOps rnd cos sin, bAddr := bAddr, conv := conv }
    let st_after := fun n =>
      (execSeq env (test_asm.take n) (test_entry env s)).map (fun t => t.st)
    test_asm.take 9 = [.fld .a, .fld .b, .fld_st 1, .fadd 0 1, .fadd 1 0, .fsub 0 1,
      .fsubr 0 1, .fmul 0 1, .fdiv 0 1] ∧
    (test_entry env s).fv .a = some 1 ∧ (test_entry env s).fv .b = some (3 / 2) ∧
    st_after 3 = some [1, 3 / 2, 1] ∧
    st_after 4 = some [5 / 2, 3 / 2, 1] ∧
    st_after 5 = some [5 / 2, 4, 1] ∧
    st_after 6 = some [-3 / 2, 4, 1] ∧
    st_after 7 = some [11 / 2, 4, 1] ∧
    st_after 8 = some [22, 4, 1] ∧
    st_after 9 = some [11 / 2, 4, 1] := by
  intro env st_after
  obtain ⟨b1, b2, b3, b4, b5, b6, b7⟩ := binary32_values
  have r1 := hr _ b1
  have r2 := hr _ b2
  have r3 := hr _ b3
  have r4 := hr _ b4
  have r5 := hr _ b5
  have r6 := hr _ b6
  have r7 := hr _ b7
  obtain ⟨h3, h4, h5, h6, h7, h8, h9⟩ := test_steps_run env s hst
  dsimp only at h3 h4 h5 h6 h7 h8 h9
  have x1 : (roundedOps rnd cos sin).lit 1 = 1 := r1
  have x2 : (roundedOps rnd cos sin).lit (3 / 2) = 3 / 2 := r2
  have xA : (roundedOps rnd cos sin).add 1 (3 / 2) = 5 / 2 := by
    show rnd (1 + 3 / 2) = 5 / 2
    rw [show (1 + 3 / 2 : ℚ) = 5 / 2 by norm_num, r3]
  have xB : (roundedOps rnd cos sin).add (3 / 2) (5 / 2) = 4 := by
    show rnd (3 / 2 + 5 / 2) = 4
    rw [show (3 / 2 + 5 / 2 : ℚ) = 4 by norm_num, r4]
  have xC : (roundedOps rnd cos sin).sub (5 / 2) 4 = -3 / 2 := by
    show rnd (5 / 2 - 4) = -3 / 2
    rw [show (5 / 2 - 4 : ℚ) = -3 / 2 by norm_num, r5]
  have xD : (roundedOps rnd cos sin).sub 4 (-3 / 2) = 11 / 2 := by
    show rnd (4 - -3 / 2) = 11 / 2
    rw [show (4 - -3 / 2 : ℚ) = 11 / 2 by norm_num, r6]
  have xE : (roundedOps rnd cos sin).mul (11 / 2) 4 = 22 := by
    show rnd (11 / 2 * 4) = 22
    rw [show (11 / 2 * 4 : ℚ) = 22 by norm_num, r7]
  have xF : (roundedOps rnd cos sin).div 22 4 = 11 / 2 := by
    show rnd (22 / 4) = 11 / 2
    rw [show (22 / 4 : ℚ) = 11 / 2 by norm_num, r6]
  simp only [x1, x2, xA, xB, xC, xD, xE, xF] at h3 h4 h5 h6 h7 h8 h9
  refine ⟨rfl, ?_, ?_, h3, h4, h5, h6, h7, h8, h9⟩
  · show setFv (setFv s.fv .a (rnd 1)) .b (rnd (3 / 2)) .a = some 1
    rw [r1]; simp [setFv]
  · show setFv (setFv s.fv .a (rnd 1)) .b (rnd (3 / 2)) .b = some (3 / 2)
    rw [r2]; simp [setFv]

/-- C5 with results rounded to the grid of `2^-149`, on the idle machine. -/
theorem C5_fpu_stack_exact_witness :
    (idle ℚ).st = [] ∧ (∀ x : ℚ, IsBinary32 x → roundGrid x = x) ∧
    (test_asm.take 9 = [.fld .a, .fld .b, .fld_st 1, .fadd 0 1, .fadd 1 0, .fsub 0 1,
      .fsubr 0 1, .fmul 0 1, .fdiv 0 1] ∧
    (test_entry (Env.mk (roundedOps roundGrid (fun x => x) (fun x => x)) 0 .cdecl)
      (idle ℚ)).fv .a = some 1 ∧
    (test_entry (Env.mk (roundedOps roundGrid (fun x => x) (fun x => x)) 0 .cdecl)
      (idle ℚ)).fv .b = some (3 / 2) ∧
    (execSeq (Env.mk (roundedOps roundGrid (fun x => x) (fun x => x)) 0 .cdecl)
      (test_asm.take 3)
      (test_entry (Env.mk (roundedOps roundGrid (fun x => x) (fun x => x)) 0 .cdecl)
        (idle ℚ))).map (fun t => t.st) = some [1, 3 / 2, 1] ∧
    (execSeq (Env.mk (roundedOps roundGrid (fun x => x) (fun x => x)) 0 .cdecl)
      (test_asm.take 4)
      (test_entry (Env.mk (roundedOps roundGrid (fun x => x) (fun x => x)) 0 .cdecl)
        (idle ℚ))).map (fun t => t.st) = some [5 / 2, 3 / 2, 1] ∧
    (execSeq (Env.mk (roundedOps roundGrid (fun x => x) (fun x => x)) 0 .cdecl)
      (test_asm.take 5)
      (test_entry (Env.mk (roundedOps roundGrid (fun x => x) (fun x => x)) 0 .cdecl)
        (idle ℚ))).map (fun t => t.st) = some [5 / 2, 4, 1] ∧
    (execSeq (Env.mk (roundedOps roundGrid (fun x => x) (fun x => x)) 0 .cdecl)
      (test_asm.take 6)
      (test_entry (Env.mk (roundedOps roundGrid (fun x => x) (fun x => x)) 0 .cdecl)
        (idle ℚ))).map (fun t => t.st) = some [-3 / 2, 4, 1] ∧
    (execSeq (Env.mk (roundedOps roundGrid (fun x => x) (fun x => x)) 0 .cdecl)
      (test_asm.take 7)
      (test_entry (Env.mk (roundedOps roundGrid (fun x => x) (fun x => x)) 0 .cdecl)
        (idle ℚ))).map (fun t => t.st) = some [11 / 2, 4, 1] ∧
    (execSeq (Env.mk (roundedOps roundGrid (fun x => x) (fun x => x)) 0 .cdecl)
      (test_asm.take 8)
      (test_entry (Env.mk (roundedOps roundGrid (fun x => x) (fun x => x)) 0 .cdecl)
        (idle ℚ))).map (fun t => t.st) = some [22, 4, 1] ∧
    (execSeq (Env.mk (roundedOps roundGrid (fun x => x) (fun x => x)) 0 .cdecl)
      (test_asm.take 9)
      (test_entry (Env.mk (roundedOps roundGrid (fun x => x) (fun x => x)) 0 .cdecl)
        (idle ℚ))).map (fun t => t.st) = some [11 / 2, 4, 1]) :=
  ⟨rfl, roundGrid_fixes,
    C5_fpu_stack_exact roundGrid (fun x => x) (fun x => x) 0 .cdecl (idle ℚ) rfl
      roundGrid_fixes⟩

theorem exact_value_real :
    let ops : FpuOps ℝ := exactOps Real.cos Real.sin
    let x1 := ops.lit 1
    let x2 := ops.lit (3 / 2)
    let A := ops.add x1 x2
    let B := ops.add x2 A
    let C := ops.sub A B
    let D := ops.sub B C
    let E := ops.mul D B
    let F := ops.div E B
    x1 = 1 ∧ B = 4 ∧ F = 5.5 := by
  simp only [exactOps]
  norm_num

/-- C4: over real arithmetic and on an empty x87 stack, `test` returns with
`ST(0) = cos (sin (cos 5.5))`, the cosine half of the final `fsincos` applied to
`sin (cos 5.5)`, and with the matching sine `sin (sin (cos 5.5))` in `ST(1)`; `main`,
given fuel for its 29 steps, ends with that cosine stored in `f` by `fst f` and still
in `ST(0)`. -/
theorem C4_cosine_result (bAddr : Nat) (conv : CallConv) (s0 : Cpu ℝ) (fuel : Nat)
    (hst : s0.st = []) (hfuel : 29 ≤ fuel) :
    let env : Env ℝ := { fpu := exactOps Real.cos Real.sin, bAddr := bAddr, conv := conv }
    test_asm.get? 11 = some .fsincos ∧ main_asm.get? 24 = some (.fst .f) ∧
    (∃ t, test env s0 = some t ∧
      t.st = [Real.cos (Real.sin (Real.cos 5.5)), Real.sin (Real.sin (Real.cos 5.5)), 4, 1]) ∧
    (∃ t, main env fuel s0 = some t ∧
      t.fv .f = some (Real.cos (Real.sin (Real.cos 5.5))) ∧
      t.st.get? 0 = some (Real.cos (Real.sin (Real.cos 5.5))) ∧
      t.st.get? 1 = some (Real.sin (Real.sin (Real.cos 5.5)))) := by
  intro env
  obtain ⟨v1, vB, vF⟩ := exact_value_real
  refine ⟨rfl, rfl, ?_, ?_⟩
  · have ht := (test_run env s0 hst).2.2
    dsimp only at ht
    refine ⟨_, ht, ?_⟩
    show [Real.cos (Real.sin (Real.cos _)), Real.sin (Real.sin (Real.cos _)), _, _] = _
    rw [vF, vB, v1]
  · obtain ⟨-, ⟨t, ht, hpc, -, hs, hf⟩⟩ := trace29 env s0 hst
    dsimp only at hs hf
    have hm : main env fuel s0 = some { t with eax := 1 } := by
      unfold main
      rw [runBlock_of_run env main_asm 29 fuel (main_entry env s0) t ht hpc hfuel]
    refine ⟨_, hm, ?_, ?_, ?_⟩
    · show t.fv .f = _
      rw [hf]
      show some (Real.cos (Real.sin (Real.cos _))) = _
      rw [vF]
    · show t.st.get? 0 = _
      rw [hs]
      show some (Real.cos (Real.sin (Real.cos _))) = _
      rw [vF]
    · show t.st.get? 1 = _
      rw [hs]
      show some (Real.sin (Real.sin (Real.cos _))) = _
      rw [vF]

/-- C4 on the idle machine, with the local `b` at address 0 and fuel 29. -/
theorem C4_cosine_result_witness :
    (idle ℝ).st = [] ∧ 29 ≤ 29 ∧
    (test_asm.get? 11 = some .fsincos ∧ main_asm.get? 24 = some (.fst .f) ∧
    (∃ t, test { fpu := exactOps Real.cos Real.sin, bAddr := 0, conv := .cdecl } (idle ℝ)
        = some t ∧
      t.st = [Real.cos (Real.sin (Real.cos 5.5)), Real.sin (Real.sin (Real.cos 5.5)), 4, 1]) ∧
    (∃ t, main { fpu := exactOps Real.cos Real.sin, bAddr := 0, conv := .cdecl } 29 (idle ℝ)
        = some t ∧
      t.fv .f = some (Real.cos (Real.sin (Real.cos 5.5))) ∧
      t.st.get? 0 = some (Real.cos (Real.sin (Real.cos 5.5))) ∧
      t.st.get? 1 = some (Real.sin (Real.sin (Real.cos 5.5))))) :=
  ⟨rfl, le_refl 29, C4_cosine_result 0 .cdecl (idle ℝ) 29 rfl (le_refl 29)⟩

end InlineAsm
